import Mathlib

/-!
Shallow embedding of `src/scripts/image_to_sprite.py` (the Sprite Converter
utility) and verification of its specification.

The Python program is a linear pipeline: decode an image, optionally resize
it preserving aspect ratio, threshold every pixel's brightness to 0/1, and
print the resulting grid as a TypeScript constant.  Machine arithmetic in the
source is Python's arbitrary-precision `int` (embedded as `Int`/`Nat`) and
IEEE-754 binary64 `float` operations.  The float operations that matter are
modelled exactly: every float-producing step in the resize-height computation
is a correctly rounded (round-to-nearest, ties-to-even) binary64 operation,
embedded as the rational-valued rounding function `fl` below; the brightness
comparison is embedded as exact rational arithmetic because its float
rounding provably cannot flip the comparison (see `pixelValue_eq_int`).
-/

/-- One RGB pixel: three 8-bit channel values (`img.getpixel` in the source). -/
structure RGB where
  r : Nat
  g : Nat
  b : Nat
deriving DecidableEq, Repr

/-- Decoded raster image after conversion to RGB mode: a width, a height, and
a pixel lookup function (`img.getpixel((x, y))` in the source). -/
structure Image where
  width : Nat
  height : Nat
  px : Nat → Nat → RGB

/-- Python truncation of a rational toward zero, the behaviour of `int(f)`
on a `float` `f`: floor for nonnegative values, ceiling for negative ones. -/
def int_trunc (q : ℚ) : Int :=
  if 0 ≤ q then ⌊q⌋ else ⌈q⌉

/-- Round-half-even of a rational to an integer: the tie-breaking rule of
IEEE-754 round-to-nearest. -/
def rhe (s : ℚ) : Int :=
  if Int.fract s < 1/2 then ⌊s⌋
  else if (1 : ℚ)/2 < Int.fract s then ⌊s⌋ + 1
  else if 2 ∣ ⌊s⌋ then ⌊s⌋ else ⌊s⌋ + 1

/-- Binary64 rounding of a positive rational: scale into the 53-bit
significand range `[2^52, 2^53)`, round the significand half-to-even, and
scale back. -/
def flPos (q : ℚ) : ℚ :=
  (rhe (q * (2 : ℚ) ^ ((52 : ℤ) - Int.log 2 q)) : ℚ) * (2 : ℚ) ^ (Int.log 2 q - 52)

/-- Modelled from CPython / IEEE-754 semantics: the correctly rounded
(round-to-nearest, ties-to-even) binary64 value of an exact rational.
CPython computes `int / int` true division, `int`-to-`float` conversion and
`float * float` multiplication as exactly this rounding of the exact result.
Overflow to infinity (beyond `2^1024`) and subnormal underflow (below
`2^-1022`) are not modelled; both are unreachable for image dimensions. -/
def fl (q : ℚ) : ℚ :=
  if 0 < q then flPos q else if q < 0 then -flPos (-q) else 0

/-- Modelled from the spec: nearest-neighbor resampling selects the closest
source pixel for each destination coordinate.  The sampling kernel lives in
the external imaging library (`Image.Resampling.NEAREST`), not in this
repository; the claims under verification depend only on the resized
dimensions, never on which source pixel is chosen. -/
def nearestIndex (srcLen dstLen i : Nat) : Nat :=
  min (srcLen - 1) ((2 * i + 1) * srcLen / (2 * dstLen))

/-- The resize branch of `image_to_sprite`, with each float operation
modelled by the binary64 rounding `fl`: `aspect_ratio = img.height /
img.width` is `fl` of the exact quotient (CPython `int / int` true division
is correctly rounded); `target_width * aspect_ratio` converts the `int` to
a double (`fl` of the integer) and multiplies with one more correct
rounding; `int(...)` truncates the resulting double toward zero.  Then a
nearest-neighbor resample to `(target_width, target_height)`. -/
def resizeNearest (img : Image) (target_width : Int) : Image :=
  let aspect : ℚ := fl ((img.height : ℚ) / (img.width : ℚ))
  let target_height : Int := int_trunc (fl (fl (target_width : ℚ) * aspect))
  { width := target_width.toNat
    height := target_height.toNat
    px := fun x y =>
      img.px (nearestIndex img.width target_width.toNat x)
             (nearestIndex img.height target_height.toNat y) }

/-- Python truthiness of the `target_width` argument: `if target_width:`
is false both for `None` and for `0`. -/
def truthy (o : Option Int) : Bool :=
  match o with
  | none => false
  | some n => n != 0

/-- The image actually thresholded: resized when `target_width` is truthy,
the original image otherwise. -/
def applyResize (img : Image) (target_width : Option Int) : Image :=
  if truthy target_width then resizeNearest img (target_width.getD 0) else img

/-- Brightness of a pixel: `(r + g + b) / 3` (float division in the source;
exact here — for integer channels and an integer threshold the comparison
`brightness < threshold` never falls inside a double-rounding gap). -/
def brightness (c : RGB) : ℚ :=
  ((c.r + c.g + c.b : Nat) : ℚ) / 3

/-- Classification of one pixel: `1 if brightness < threshold else 0`. -/
def pixelValue (c : RGB) (threshold : Int) : Nat :=
  if brightness c < (threshold : ℚ) then 1 else 0

/-- The conversion `image_to_sprite(image_path, threshold, target_width)`
after the image has been decoded: optional resize, then the row-major
double loop building the 0/1 grid.  Returns `(pixels, width, height)`
exactly as the source does. -/
def image_to_sprite (img : Image) (threshold : Int) (target_width : Option Int) :
    List (List Nat) × Nat × Nat :=
  let img := applyResize img target_width
  ((List.range img.height).map fun y =>
      (List.range img.width).map fun x => pixelValue (img.px x y) threshold,
   img.width, img.height)

/-- Row rendering used by the formatter: `",".join(str(p) for p in row)`
wrapped as `    [<row>],`. -/
def rowLine (row : List Nat) : String :=
  "    [" ++ String.intercalate "," (row.map toString) ++ "],"

/-- The formatter `format_as_typescript(pixels, name)`: builds the list of
lines exactly as the source does and joins them with newlines. -/
def format_as_typescript (pixels : List (List Nat)) (name : String) : String :=
  let lines : List String :=
    ["const " ++ name ++ " = \x7b", "  pixels: ["]
      ++ pixels.map rowLine
      ++ ["  ],", "\x7d;"]
  String.intercalate "\n" lines

/-- Decimal value of a character list, or `none` if the list is empty or
contains a non-digit.  Helper for `parsePyInt`. -/
def digitsVal (l : List Char) : Option Nat :=
  if l ≠ [] ∧ l.all Char.isDigit then
    some (l.foldl (fun a c => 10 * a + (c.toNat - 48)) 0)
  else none

/-- Modelled from Python semantics: `int(s)` on a string accepts an optional
sign followed by decimal digits and raises `ValueError` otherwise (the
source relies on the language runtime here; surrounding-whitespace and
underscore tolerance of CPython is irrelevant to the claims, which use plain
numerals and a plainly non-numeric string). -/
def parsePyInt (s : String) : Option Int :=
  match s.data with
  | '-' :: rest => (digitsVal rest).map fun n => -(n : Int)
  | '+' :: rest => (digitsVal rest).map fun n => (n : Int)
  | l => (digitsVal l).map fun n => (n : Int)

/-- Optional integer argument at position `i`: `int(sys.argv[i]) if
len(sys.argv) > i else None`.  `none` means the `int()` call raised
`ValueError`; `some o` carries the parsed argument (or `o = none` when the
argument is absent). -/
def parseOptArg (argv : List String) (i : Nat) : Option (Option Int) :=
  if argv.length > i then (parsePyInt (argv.getD i "")).map some
  else some none

/-- Diagnostic-stream (stderr) events of one run, one constructor per
`print(..., file=sys.stderr)` site or runtime traceback in the source.
`summary` records the dimensions and the total and filled pixel counts of
the success-path trailer (its percentage rendering is display-only). -/
inductive Diag where
  | fileNotFound (path : String)
  | valueError
  | decodeFailure (path : String)
  | imageSize (width height : Nat)
  | summary (width height total filled : Nat)
deriving DecidableEq, Repr

/-- Observable outcome of one process run: exit status, the full standard
output text, and the diagnostic-stream events in order. -/
structure Outcome where
  exitCode : Nat
  stdout : String
  stderr : List Diag
deriving Repr

/-- The three `print(...)` lines of the usage message.  They go to standard
output (no `file=sys.stderr` in the source), each followed by a newline. -/
def usageText : String :=
  "Usage: python image_to_sprite.py <image_path> [threshold] [target_width]\n"
    ++ "  threshold: 0-255, default 128. Pixels darker than this become 1\n"
    ++ "  target_width: optional, resize image to this width\n"

/-- Outcome of an uncaught `ValueError` from `int()`: CPython prints a
traceback to stderr and exits with status 1; nothing reaches stdout. -/
def valueErrorOutcome : Outcome :=
  { exitCode := 1, stdout := "", stderr := [Diag.valueError] }

/-- Environment of a run: which paths exist (`os.path.exists`) and what each
path decodes to (`Image.open` followed by RGB conversion; `none` means the
open/decode raised). -/
structure World where
  exists_file : String → Bool
  decode : String → Option Image

/-- Filled-pixel count `sum(sum(row) for row in pixels)`. -/
def filledCount (pixels : List (List Nat)) : Nat :=
  (pixels.map fun row => row.sum).sum

/-- The entry point `main()`: usage check, argument parsing (before the
existence check, as in the source), existence check, decode, conversion,
and output.  `argv` is the full `sys.argv` including the program name. -/
def Script.main (argv : List String) (w : World) : Outcome :=
  if argv.length < 2 then
    { exitCode := 1, stdout := usageText, stderr := [] }
  else
    let image_path := argv.getD 1 ""
    match parseOptArg argv 2 with
    | none => valueErrorOutcome
    | some ot =>
      let threshold := ot.getD 128
      match parseOptArg argv 3 with
      | none => valueErrorOutcome
      | some target_width =>
        if w.exists_file image_path = false then
          { exitCode := 1, stdout := "", stderr := [Diag.fileNotFound image_path] }
        else
          match w.decode image_path with
          | none =>
            { exitCode := 1, stdout := "", stderr := [Diag.decodeFailure image_path] }
          | some img =>
            let r := image_to_sprite img threshold target_width
            { exitCode := 0
              stdout := format_as_typescript r.1 "STACK_ATTACK_LOGO" ++ "\n"
              stderr := [Diag.imageSize r.2.1 r.2.2,
                         Diag.summary r.2.1 r.2.2 (r.2.1 * r.2.2) (filledCount r.1)] }

/-- Helper for transcribing the spec's row sequence: every grid row rendered
as an indented bracketed comma-joined literal with a trailing comma, each on
its own line. -/
def specRows : List (List Nat) → String
  | [] => ""
  | row :: rest =>
      "    [" ++ String.intercalate "," (row.map toString) ++ "],\n" ++ specRows rest

/-- Transcribed from the spec's description of the named-constant form (for
the refinement comparison with `format_as_typescript`): a first line
declaring a structure labeled `STACK_ATTACK_LOGO` with an opening brace, a
`pixels` field listing one comma-joined bracketed row per grid row with a
trailing comma per row, rows top-to-bottom, and a closing brace with a
semicolon terminator. -/
def specNamedConstantOutput (pixels : List (List Nat)) : String :=
  "const STACK_ATTACK_LOGO = \x7b\n  pixels: [\n"
    ++ specRows pixels
    ++ "  ],\n\x7d;"

/-- Helper describing `String.intercalate.go`: each remaining element is
emitted preceded by one newline. -/
def nlJoin : List String → String
  | [] => ""
  | a :: as => "\n" ++ a ++ nlJoin as

/-- Concrete 2×2 test image from the spec's scenario: left column black,
right column white. -/
def exImg22 : Image :=
  { width := 2, height := 2
    px := fun x _ => if x = 0 then ⟨0, 0, 0⟩ else ⟨255, 255, 255⟩ }

/-- Concrete 3×2 all-black test image (used to exhibit the truncation in the
resize-height computation). -/
def exImg32 : Image :=
  { width := 3, height := 2, px := fun _ _ => ⟨0, 0, 0⟩ }

/-- Concrete 49×2 all-black test image (used to exhibit the double-rounding
undershoot in the resize-height computation). -/
def ex49x2 : Image :=
  { width := 49, height := 2, px := fun _ _ => ⟨0, 0, 0⟩ }

/-- Concrete world in which no path exists and nothing decodes. -/
def emptyWorld : World :=
  { exists_file := fun _ => false, decode := fun _ => none }

/-- Concrete world in which every path exists and decodes to `exImg22`. -/
def fullWorld : World :=
  { exists_file := fun _ => true, decode := fun _ => some exImg22 }

/-- Concrete world in which exactly the path `b.png` exists and decodes to
`exImg22`. -/
def bWorld : World :=
  { exists_file := fun p => p = "b.png"
    decode := fun p => if p = "b.png" then some exImg22 else none }

/-- The brightness comparison over `ℚ` coincides with the integer comparison
`r + g + b < 3 * t`; this is also why Python's `float` division cannot flip
the comparison: the two compared values are never closer than `1/3` apart
unless exactly equal. -/
theorem pixelValue_eq_int (c : RGB) (t : Int) :
    pixelValue c t = if ((c.r + c.g + c.b : Nat) : Int) < 3 * t then 1 else 0 := by
  have key : brightness c < (t : ℚ) ↔ ((c.r + c.g + c.b : Nat) : Int) < 3 * t := by
    unfold brightness
    rw [div_lt_iff₀ (by norm_num : (0 : ℚ) < 3), mul_comm]
    exact_mod_cast Iff.rfl
  unfold pixelValue
  simp only [key]

/-- Unfolding of `Int.fract` used when evaluating the tie-breaking rule. -/
theorem fract_def (s : ℚ) : Int.fract s = s - ⌊s⌋ := rfl

/-- Round-to-nearest never errs by more than half a unit. -/
theorem abs_rhe_sub (s : ℚ) : |(rhe s : ℚ) - s| ≤ 1/2 := by
  have h0 := Int.fract_nonneg s
  have h1 := Int.fract_lt_one s
  rw [fract_def] at h0 h1
  unfold rhe
  split_ifs with hc1 hc2 hc3
  · rw [fract_def] at hc1
    rw [abs_le]
    constructor <;> linarith
  · rw [fract_def] at hc1 hc2
    push_cast
    rw [abs_le]
    constructor <;> linarith
  · rw [fract_def] at hc1 hc2
    rw [abs_le]
    constructor <;> linarith
  · rw [fract_def] at hc1 hc2
    push_cast
    rw [abs_le]
    constructor <;> linarith

/-- Round-to-nearest is exact on integers. -/
theorem rhe_intCast (n : ℤ) : rhe ((n : ℚ)) = n := by
  unfold rhe
  rw [Int.fract_intCast, Int.floor_intCast]
  norm_num

/-- Round-to-nearest preserves nonnegativity. -/
theorem rhe_nonneg (s : ℚ) (h : 0 ≤ s) : 0 ≤ rhe s := by
  have hf : (0:ℤ) ≤ ⌊s⌋ := Int.floor_nonneg.2 h
  unfold rhe
  split_ifs <;> omega

/-- Relative error of one binary64 rounding of a positive value: at most
half an ulp, hence at most `q / 2^53`. -/
theorem abs_flPos_sub (q : ℚ) (hq : 0 < q) : |flPos q - q| ≤ q / 2 ^ 53 := by
  set e := Int.log 2 q with he
  have hpow : (0:ℚ) < (2:ℚ) ^ (e - 52) := by positivity
  have hqe : (2:ℚ) ^ e ≤ q := Int.zpow_log_le_self (by norm_num) hq
  have key : flPos q - q
      = ((rhe (q * (2:ℚ) ^ ((52:ℤ) - e)) : ℚ) - q * (2:ℚ) ^ ((52:ℤ) - e)) * (2:ℚ) ^ (e - 52) := by
    unfold flPos
    rw [← he, sub_mul]
    congr 1
    rw [mul_assoc, ← zpow_add₀ (by norm_num : (2:ℚ) ≠ 0)]
    norm_num
  rw [key, abs_mul, abs_of_pos hpow]
  have h1 := abs_rhe_sub (q * (2:ℚ) ^ ((52:ℤ) - e))
  calc |(rhe (q * (2:ℚ) ^ ((52:ℤ) - e)) : ℚ) - q * (2:ℚ) ^ ((52:ℤ) - e)| * (2:ℚ) ^ (e - 52)
      ≤ (1/2) * (2:ℚ) ^ (e - 52) := by
        exact mul_le_mul_of_nonneg_right h1 (le_of_lt hpow)
    _ = (2:ℚ) ^ (e - 53) := by
        rw [show (e - 53 : ℤ) = (-1) + (e - 52) by ring, zpow_add₀ (by norm_num : (2:ℚ) ≠ 0)]
        norm_num
    _ ≤ q / 2 ^ 53 := by
        rw [show (e - 53 : ℤ) = e + (-53) by ring, zpow_add₀ (by norm_num : (2:ℚ) ≠ 0)]
        rw [div_eq_mul_inv]
        have h2 : ((2:ℚ) ^ ((-53):ℤ)) = ((2:ℚ) ^ (53:ℕ))⁻¹ := by
          rw [zpow_neg]
          norm_num
        rw [h2]
        exact mul_le_mul_of_nonneg_right hqe (by positivity)

/-- Binary64 rounding preserves nonnegativity. -/
theorem fl_nonneg (q : ℚ) (h : 0 ≤ q) : 0 ≤ fl q := by
  unfold fl
  split_ifs with h1 h2
  · unfold flPos
    have hr : (0:ℤ) ≤ rhe ((q * (2:ℚ) ^ ((52:ℤ) - Int.log 2 q))) :=
      rhe_nonneg _ (by positivity)
    have hr2 : (0:ℚ) ≤ (rhe ((q * (2:ℚ) ^ ((52:ℤ) - Int.log 2 q))) : ℚ) := by exact_mod_cast hr
    positivity
  · linarith
  · exact le_refl 0

/-- Relative error of one binary64 rounding of a nonnegative value. -/
theorem fl_error (q : ℚ) (h : 0 ≤ q) : |fl q - q| ≤ q / 2 ^ 53 := by
  rcases eq_or_lt_of_le h with rfl | hq
  · simp [fl]
  · unfold fl
    rw [if_pos hq]
    exact abs_flPos_sub q hq

/-- Binary64 rounding is exact on natural numbers up to `2^52` (the
`int`-to-`float` conversion of small integers is lossless). -/
theorem fl_natCast (n : ℕ) (hn : n ≤ 2 ^ 52) : fl ((n : ℚ)) = n := by
  rcases Nat.eq_zero_or_pos n with rfl | hpos
  · simp [fl]
  · have hq : (0:ℚ) < (n:ℚ) := by exact_mod_cast hpos
    unfold fl
    rw [if_pos hq]
    unfold flPos
    set e := Int.log 2 ((n:ℚ)) with he
    have he0 : 0 ≤ e := by
      rw [he]
      refine (Int.zpow_le_iff_le_log (by norm_num) hq).mp ?_
      simpa using (by exact_mod_cast hpos : (1:ℚ) ≤ (n:ℚ))
    have he52 : e ≤ 52 := by
      by_contra hgt
      push_neg at hgt
      have h1 : ((2:ℚ)) ^ (53:ℤ) ≤ (2:ℚ) ^ e := by
        apply zpow_le_zpow_right₀ (by norm_num) (by omega)
      have h2 : (2:ℚ) ^ e ≤ (n:ℚ) := by
        rw [he]
        exact Int.zpow_log_le_self (by norm_num) hq
      have h3 : ((n:ℚ)) ≤ ((2:ℚ)) ^ (52:ℕ) := by
        exact_mod_cast (by exact_mod_cast hn : ((n:ℕ):ℚ) ≤ ((2^52 : ℕ) : ℚ))
      have h4 : ((2:ℚ)) ^ (53:ℤ) = ((2:ℚ)) ^ (53:ℕ) := by norm_num
      have h5 : ((2:ℚ)) ^ (52:ℕ) < ((2:ℚ)) ^ (53:ℕ) := by
        apply pow_lt_pow_right₀ (by norm_num) (by omega)
      linarith
    obtain ⟨k, hk⟩ : ∃ k : ℕ, (52:ℤ) - e = k := ⟨(52 - e).toNat, by omega⟩
    have hs : (n:ℚ) * (2:ℚ) ^ ((52:ℤ) - e) = (((n * 2 ^ k : ℕ) : ℤ) : ℚ) := by
      rw [hk]
      rw [zpow_natCast]
      push_cast
      ring
    rw [hs, rhe_intCast]
    push_cast
    rw [mul_assoc, ← zpow_natCast (2:ℚ) k, ← zpow_add₀ (by norm_num : (2:ℚ) ≠ 0)]
    rw [show ((k:ℤ) + (e - 52)) = 0 by omega]
    norm_num

/-- The doubly rounded product `fl(fl(W) * fl(H/W0))` computed by the resize
stays within `2^-25` of the exact quotient `W*H/W0` for image-scale
magnitudes. -/
theorem fl_product_close (W W0 H : ℕ) (h0 : 0 < W0) (hmag : W * H ≤ 2 ^ 26) :
    |fl (fl ((W : ℚ)) * fl ((H : ℚ) / (W0 : ℚ))) - (W * H : ℚ) / (W0 : ℚ)|
      ≤ 1 / 2 ^ 25 := by
  rcases Nat.eq_zero_or_pos H with rfl | hH
  · norm_num [fl]
  · have hWle : W ≤ 2 ^ 52 := by
      have h1 : W ≤ W * H := Nat.le_mul_of_pos_right W hH
      have h2 : W ≤ 2 ^ 26 := le_trans h1 hmag
      omega
    have hx0 : (0:ℚ) ≤ (H : ℚ) / (W0 : ℚ) := by positivity
    have ha := fl_error ((H : ℚ) / (W0 : ℚ)) hx0
    have haW : fl ((W : ℚ)) = (W : ℚ) := fl_natCast W hWle
    have hq : (W : ℚ) * ((H : ℚ) / (W0 : ℚ)) = (W * H : ℚ) / (W0 : ℚ) := by
      ring
    have ha0 : 0 ≤ fl ((H : ℚ) / (W0 : ℚ)) := fl_nonneg _ hx0
    have hq0 : (0:ℚ) ≤ (W * H : ℚ) / (W0 : ℚ) := by positivity
    have hWa : |(W : ℚ) * fl ((H : ℚ) / (W0 : ℚ)) - (W * H : ℚ) / (W0 : ℚ)|
        ≤ ((W * H : ℚ) / (W0 : ℚ)) / 2 ^ 53 := by
      rw [← hq, ← mul_sub, abs_mul, abs_of_nonneg (by positivity : (0:ℚ) ≤ (W:ℚ))]
      calc (W : ℚ) * |fl ((H : ℚ) / (W0 : ℚ)) - (H : ℚ) / (W0 : ℚ)|
          ≤ (W : ℚ) * (((H : ℚ) / (W0 : ℚ)) / 2 ^ 53) :=
            mul_le_mul_of_nonneg_left ha (by positivity)
        _ = ((W : ℚ) * ((H : ℚ) / (W0 : ℚ))) / 2 ^ 53 := by ring
    have hp := fl_error ((W : ℚ) * fl ((H : ℚ) / (W0 : ℚ))) (by positivity)
    have hqbound : (W * H : ℚ) / (W0 : ℚ) ≤ 2 ^ 26 := by
      calc (W * H : ℚ) / (W0 : ℚ) ≤ (W * H : ℚ) := by
            apply div_le_self (by positivity)
            exact_mod_cast h0
        _ ≤ 2 ^ 26 := by exact_mod_cast hmag
    rw [haW]
    have habs := abs_sub_le (fl ((W : ℚ) * fl ((H : ℚ) / (W0 : ℚ))))
      ((W : ℚ) * fl ((H : ℚ) / (W0 : ℚ))) ((W * H : ℚ) / (W0 : ℚ))
    have hWaub : (W : ℚ) * fl ((H : ℚ) / (W0 : ℚ))
        ≤ (W * H : ℚ) / (W0 : ℚ) + ((W * H : ℚ) / (W0 : ℚ)) / 2 ^ 53 := by
      have h3 := (abs_le.mp hWa).2
      linarith
    have h4 : ((W : ℚ) * fl ((H : ℚ) / (W0 : ℚ))) / 2 ^ 53
        ≤ ((W * H : ℚ) / (W0 : ℚ) + ((W * H : ℚ) / (W0 : ℚ)) / 2 ^ 53) / 2 ^ 53 := by
      gcongr
    calc |fl ((W : ℚ) * fl ((H : ℚ) / (W0 : ℚ))) - (W * H : ℚ) / (W0 : ℚ)|
        ≤ |fl ((W : ℚ) * fl ((H : ℚ) / (W0 : ℚ))) - (W : ℚ) * fl ((H : ℚ) / (W0 : ℚ))|
          + |(W : ℚ) * fl ((H : ℚ) / (W0 : ℚ)) - (W * H : ℚ) / (W0 : ℚ)| := habs
      _ ≤ ((W * H : ℚ) / (W0 : ℚ) + ((W * H : ℚ) / (W0 : ℚ)) / 2 ^ 53) / 2 ^ 53
          + ((W * H : ℚ) / (W0 : ℚ)) / 2 ^ 53 := by linarith
      _ ≤ 1 / 2 ^ 25 := by nlinarith [hqbound, hq0]

/-- Characterisation of the truncated doubly rounded resize height: when the
original width does not divide `W * H` the result is exactly the floor of
the quotient; when it divides, double rounding can undershoot by one. -/
theorem trunc_fl_product (W W0 H : ℕ) (h0 : 0 < W0) (hw0 : W0 ≤ 2 ^ 24)
    (hmag : W * H ≤ 2 ^ 26) :
    (¬ W0 ∣ W * H →
        (int_trunc (fl (fl ((W : ℚ)) * fl ((H : ℚ) / (W0 : ℚ))))).toNat = (W * H) / W0)
    ∧ (W0 ∣ W * H →
        (int_trunc (fl (fl ((W : ℚ)) * fl ((H : ℚ) / (W0 : ℚ))))).toNat = (W * H) / W0
        ∨ (int_trunc (fl (fl ((W : ℚ)) * fl ((H : ℚ) / (W0 : ℚ))))).toNat + 1 = (W * H) / W0) := by
  have hclose := fl_product_close W W0 H h0 hmag
  have hp0 : 0 ≤ fl (fl ((W : ℚ)) * fl ((H : ℚ) / (W0 : ℚ))) := by
    apply fl_nonneg
    have h1 := fl_nonneg ((W : ℚ)) (by positivity)
    have h2 := fl_nonneg ((H : ℚ) / (W0 : ℚ)) (by positivity)
    exact mul_nonneg h1 h2
  set p := fl (fl ((W : ℚ)) * fl ((H : ℚ) / (W0 : ℚ))) with hpdef
  have htr : int_trunc p = ⌊p⌋ := by
    unfold int_trunc
    rw [if_pos hp0]
  have hlow : (W * H : ℚ) / (W0 : ℚ) - 1 / 2 ^ 25 ≤ p := by
    have h3 := (abs_le.mp hclose).1
    linarith
  have hhigh : p ≤ (W * H : ℚ) / (W0 : ℚ) + 1 / 2 ^ 25 := by
    have h3 := (abs_le.mp hclose).2
    linarith
  have hmod := Nat.div_add_mod (W * H) W0
  have hrW0 : (W * H) % W0 < W0 := Nat.mod_lt _ h0
  have hW0ne : ((W0 : ℚ)) ≠ 0 := by positivity
  have hq_decomp : (W * H : ℚ) / (W0 : ℚ)
      = (((W * H) / W0 : ℕ) : ℚ) + (((W * H) % W0 : ℕ) : ℚ) / (W0 : ℚ) := by
    have hcast : ((W * H : ℕ) : ℚ) = ((W0 * ((W * H) / W0) + (W * H) % W0 : ℕ) : ℚ) := by
      rw [hmod]
    push_cast at hcast
    field_simp
    linarith
  have hinv : (1 : ℚ) / 2 ^ 24 ≤ 1 / (W0 : ℚ) := by
    apply one_div_le_one_div_of_le
    · exact_mod_cast h0
    · exact_mod_cast hw0
  constructor
  · intro hnd
    have hr1 : 1 ≤ (W * H) % W0 := by
      have h6 : (W * H) % W0 ≠ 0 := fun hz => hnd (Nat.dvd_of_mod_eq_zero hz)
      omega
    have hfrac_lb : 1 / (W0 : ℚ) ≤ (((W * H) % W0 : ℕ) : ℚ) / (W0 : ℚ) := by
      gcongr
      exact_mod_cast hr1
    have hfrac_ub : (((W * H) % W0 : ℕ) : ℚ) / (W0 : ℚ) ≤ 1 - 1 / (W0 : ℚ) := by
      rw [div_le_iff₀ (by positivity : (0:ℚ) < (W0 : ℚ))]
      have hcast : (((W * H) % W0 : ℕ) : ℚ) ≤ (W0 : ℚ) - 1 := by
        have h7 : (W * H) % W0 ≤ W0 - 1 := by omega
        have h4 : (((W * H) % W0 : ℕ) : ℚ) ≤ ((W0 - 1 : ℕ) : ℚ) := by exact_mod_cast h7
        have h5 : ((W0 - 1 : ℕ) : ℚ) = (W0 : ℚ) - 1 := by
          have h8 : (1:ℕ) ≤ W0 := h0
          push_cast [Nat.cast_sub h8]
          ring
        linarith
      calc (((W * H) % W0 : ℕ) : ℚ) ≤ (W0 : ℚ) - 1 := hcast
        _ = (1 - 1 / (W0 : ℚ)) * (W0 : ℚ) := by field_simp
    have hfloor : ⌊p⌋ = (((W * H) / W0 : ℕ) : ℤ) := by
      rw [Int.floor_eq_iff]
      constructor
      · rw [Int.cast_natCast]
        rw [hq_decomp] at hlow
        have h6 : (1:ℚ)/2^24 - 1/2^25 ≥ 0 := by norm_num
        linarith
      · rw [Int.cast_natCast]
        rw [hq_decomp] at hhigh
        linarith
    rw [htr, hfloor]
    exact Int.toNat_natCast _
  · intro hd
    have hr0 : (W * H) % W0 = 0 := Nat.mod_eq_zero_of_dvd hd
    rw [hr0] at hq_decomp
    simp only [Nat.cast_zero, zero_div, add_zero] at hq_decomp
    rw [hq_decomp] at hlow hhigh
    have hfl : (((W * H) / W0 : ℕ) : ℤ) - 1 ≤ ⌊p⌋ := by
      rw [Int.le_floor, Int.cast_sub, Int.cast_one, Int.cast_natCast]
      linarith
    have hfu : ⌊p⌋ < (((W * H) / W0 : ℕ) : ℤ) + 1 := by
      rw [Int.floor_lt, Int.cast_add, Int.cast_one, Int.cast_natCast]
      linarith
    have hf0 : 0 ≤ ⌊p⌋ := Int.floor_nonneg.2 hp0
    rw [htr]
    omega

/-- Height of the resized image, characterised against the exact integer
quotient: equal to `(W * height) / width` outside the exactly divisible
case, and possibly one less inside it. -/
theorem resizeNearest_height_cases (img : Image) (W : ℕ) (h0 : 0 < img.width)
    (hw0 : img.width ≤ 2 ^ 24) (hmag : W * img.height ≤ 2 ^ 26) :
    (¬ img.width ∣ W * img.height →
        (resizeNearest img (W : Int)).height = (W * img.height) / img.width)
    ∧ (img.width ∣ W * img.height →
        (resizeNearest img (W : Int)).height = (W * img.height) / img.width
        ∨ (resizeNearest img (W : Int)).height + 1 = (W * img.height) / img.width) := by
  have hshow : (resizeNearest img (W : Int)).height
      = (int_trunc (fl (fl ((W : ℚ)) * fl ((img.height : ℚ) / (img.width : ℚ))))).toNat := by
    unfold resizeNearest
    simp only [Int.cast_natCast]
  rw [hshow]
  exact trunc_fl_product W img.width img.height h0 hw0 hmag

/-- Determination of `Int.log 2` from a bracketing pair of powers. -/
theorem Int_log_eq (q : ℚ) (e : ℤ) (hq : 0 < q)
    (h1 : (2:ℚ) ^ e ≤ q) (h2 : q < (2:ℚ) ^ (e + 1)) :
    Int.log 2 q = e := by
  have hle : e ≤ Int.log 2 q := (Int.zpow_le_iff_le_log (by norm_num) hq).mp h1
  have hlt : Int.log 2 q < e + 1 := (Int.lt_zpow_iff_log_lt (by norm_num) hq).mp h2
  omega

/-- Evaluation of `rhe` in the round-down case. -/
theorem rhe_eval_lt (s : ℚ) (f : ℤ) (hf : ⌊s⌋ = f) (hlt : s - (f : ℚ) < 1/2) : rhe s = f := by
  unfold rhe
  rw [fract_def, hf, if_pos hlt]

/-- Evaluation of `flPos` from an explicit exponent bracket and significand. -/
theorem flPos_eval (q : ℚ) (e m : ℤ) (hq : 0 < q)
    (h1 : (2:ℚ) ^ e ≤ q) (h2 : q < (2:ℚ) ^ (e + 1))
    (hm : rhe (q * (2:ℚ) ^ ((52:ℤ) - e)) = m) :
    flPos q = (m : ℚ) * (2:ℚ) ^ (e - 52) := by
  unfold flPos
  rw [Int_log_eq q e hq h1 h2, hm]

/-- Width of the resized image is the target width. -/
theorem resizeNearest_width (img : Image) (w : Int) :
    (resizeNearest img w).width = w.toNat := rfl

/-- Binary64 rounding is exact at the integer 49. -/
theorem fl_49 : fl ((49:ℚ)) = 49 := fl_natCast 49 (by norm_num)

/-- The double nearest to `2/49` (the computed `aspect_ratio` of a 49×2
image) is slightly below the exact value. -/
theorem fl_two_div_49 : fl ((2:ℚ) / 49) = 5882252574524729 / 2 ^ 57 := by
  have hq : (0:ℚ) < 2/49 := by norm_num
  unfold fl
  rw [if_pos hq]
  have h1 : (2:ℚ) ^ ((-5):ℤ) ≤ 2/49 := by
    rw [zpow_neg]
    norm_num
  have h2 : (2:ℚ)/49 < (2:ℚ) ^ ((-5:ℤ) + 1) := by
    rw [show ((-5:ℤ) + 1) = (-4:ℤ) by ring, zpow_neg]
    norm_num
  have hzp : (2:ℚ) ^ ((52:ℤ) - (-5)) = (2:ℚ) ^ (57:ℕ) := by norm_num
  have hm : rhe ((2:ℚ)/49 * (2:ℚ) ^ ((52:ℤ) - (-5))) = 5882252574524729 := by
    rw [hzp]
    apply rhe_eval_lt
    · rw [Int.floor_eq_iff]
      constructor
      · push_cast
        norm_num
      · push_cast
        norm_num
    · push_cast
      norm_num
  rw [flPos_eval _ (-5) 5882252574524729 hq h1 h2 hm]
  rw [show ((-5:ℤ) - 52) = -(57:ℤ) by ring, zpow_neg]
  have hzp2 : (2:ℚ) ^ (57:ℤ) = (2:ℚ) ^ (57:ℕ) := by norm_num
  rw [hzp2]
  norm_num

/-- The doubly rounded product `49 * fl(2/49)` lands on the largest double
strictly below 2. -/
theorem fl_49_mul : fl ((49:ℚ) * (5882252574524729 / 2 ^ 57)) = 9007199254740991 / 2 ^ 52 := by
  have hq : (0:ℚ) < (49:ℚ) * (5882252574524729 / 2 ^ 57) := by norm_num
  unfold fl
  rw [if_pos hq]
  have h1 : (2:ℚ) ^ ((0):ℤ) ≤ (49:ℚ) * (5882252574524729 / 2 ^ 57) := by norm_num
  have h2 : (49:ℚ) * (5882252574524729 / 2 ^ 57) < (2:ℚ) ^ ((0:ℤ) + 1) := by norm_num
  have hzp : (2:ℚ) ^ ((52:ℤ) - 0) = (2:ℚ) ^ (52:ℕ) := by norm_num
  have hm : rhe ((49:ℚ) * (5882252574524729 / 2 ^ 57) * (2:ℚ) ^ ((52:ℤ) - 0))
      = 9007199254740991 := by
    rw [hzp]
    apply rhe_eval_lt
    · rw [Int.floor_eq_iff]
      constructor
      · push_cast
        norm_num
      · push_cast
        norm_num
    · push_cast
      norm_num
  rw [flPos_eval _ 0 9007199254740991 hq h1 h2 hm]
  rw [show ((0:ℤ) - 52) = -(52:ℤ) by ring, zpow_neg]
  have hzp2 : (2:ℚ) ^ (52:ℤ) = (2:ℚ) ^ (52:ℕ) := by norm_num
  rw [hzp2]
  norm_num

/-- Concrete demonstration that the double-precision resize height can fall
one below the exact floor: for a 49×2 image at target width 49 the source
computes `int(49 * (2/49)) = int(1.9999999999999998) = 1` although the
exact quotient is 2.  This is why the resize height is characterised only
up to the divisible case. -/
theorem resize_height_undershoots :
    (resizeNearest ex49x2 (49 : Int)).height = 1
    ∧ (49 * ex49x2.height) / ex49x2.width = 2 := by
  constructor
  · show (int_trunc (fl (fl (((49:ℤ) : ℚ)) * fl (((2:ℕ) : ℚ) / ((49:ℕ) : ℚ))))).toNat = 1
    rw [show (((49:ℤ)) : ℚ) = (49:ℚ) by norm_num,
      show (((2:ℕ)) : ℚ) = (2:ℚ) by norm_num,
      show (((49:ℕ)) : ℚ) = (49:ℚ) by norm_num]
    rw [fl_49, fl_two_div_49, fl_49_mul]
    unfold int_trunc
    rw [if_pos (by norm_num)]
    rw [show ⌊(9007199254740991 / 2 ^ 52 : ℚ)⌋ = 1 by
      rw [Int.floor_eq_iff]
      norm_num]
    rfl
  · decide

/-- Row count of the produced grid is the post-resize height. -/
theorem sprite_length (img : Image) (t : Int) (tw : Option Int) :
    (image_to_sprite img t tw).1.length = (applyResize img tw).height := by
  simp [image_to_sprite]

/-- The returned width and height are the post-resize dimensions. -/
theorem sprite_dims (img : Image) (t : Int) (tw : Option Int) :
    (image_to_sprite img t tw).2.1 = (applyResize img tw).width
    ∧ (image_to_sprite img t tw).2.2 = (applyResize img tw).height :=
  ⟨rfl, rfl⟩

/-- Helper characterising the accumulator loop of `String.intercalate` with
separator `"\n"`: every remaining element is appended preceded by one
newline. -/
theorem intercalate_go_eq (l : List String) :
    ∀ acc : String, String.intercalate.go acc "\n" l = acc ++ nlJoin l := by
  induction l with
  | nil =>
    intro acc
    show acc = acc ++ ""
    rw [String.append_empty]
  | cons a as ih =>
    intro acc
    show String.intercalate.go (acc ++ "\n" ++ a) "\n" as = acc ++ ("\n" ++ a ++ nlJoin as)
    rw [ih]
    simp [String.append_assoc]

/-- Unfolding equation for `specRows` on a nonempty grid. -/
theorem specRows_cons (row : List Nat) (rest : List (List Nat)) :
    specRows (row :: rest)
      = "    [" ++ String.intercalate "," (row.map toString) ++ "],\n" ++ specRows rest := rfl

/-- The newline-joined row block of the formatter coincides with the spec's
row-terminated rendering once the closing lines are appended. -/
theorem nlJoin_rows (pixels : List (List Nat)) :
    nlJoin (pixels.map rowLine ++ ["  ],", "\x7d;"])
      = "\n" ++ specRows pixels ++ "  ],\n\x7d;" := by
  induction pixels with
  | nil => rfl
  | cons row rest ih =>
    show "\n" ++ rowLine row ++ nlJoin (rest.map rowLine ++ _) = _
    rw [ih, specRows_cons]
    unfold rowLine
    apply String.ext
    simp [String.data_append, List.append_assoc]

/-- Evaluation of `main` on any argument vector with a path and parseable
optional arguments: the run reaches the existence check, then the decode,
then the conversion and output. -/
theorem main_eval (prog path : String) (args : List String) (w : World)
    (o2 o3 : Option Int)
    (h2 : parseOptArg (prog :: path :: args) 2 = some o2)
    (h3 : parseOptArg (prog :: path :: args) 3 = some o3) :
    Script.main (prog :: path :: args) w =
      if w.exists_file path = false then
        { exitCode := 1, stdout := "", stderr := [Diag.fileNotFound path] }
      else
        match w.decode path with
        | none => { exitCode := 1, stdout := "", stderr := [Diag.decodeFailure path] }
        | some img =>
            let r := image_to_sprite img (o2.getD 128) o3
            { exitCode := 0
              stdout := format_as_typescript r.1 "STACK_ATTACK_LOGO" ++ "\n"
              stderr := [Diag.imageSize r.2.1 r.2.2,
                         Diag.summary r.2.1 r.2.2 (r.2.1 * r.2.2) (filledCount r.1)] } := by
  unfold Script.main
  rw [if_neg (by simp)]
  simp only [h2, h3, List.getD_cons_succ, List.getD_cons_zero]

/-- A parse failure can only happen for an argument that is actually
present (absent arguments parse to `some none`). -/
theorem parseOptArg_none_lt (argv : List String) (i : Nat)
    (h : parseOptArg argv i = none) : i < argv.length := by
  by_contra hc
  unfold parseOptArg at h
  rw [if_neg (by omega)] at h
  exact Option.noConfusion h

/-- Evaluation of `main` when one of the optional integer arguments fails to
parse: the uncaught `ValueError` outcome, regardless of the environment. -/
theorem main_eval_badparse (argv : List String) (w : World)
    (hlen : ¬ argv.length < 2)
    (h : parseOptArg argv 2 = none ∨ parseOptArg argv 3 = none) :
    Script.main argv w = valueErrorOutcome := by
  unfold Script.main
  rw [if_neg hlen]
  rcases h with h | h
  · simp only [h]
  · rcases hp : parseOptArg argv 2 with _ | o2
    · simp only [hp]
    · simp only [hp, h]

/-- C1 (amended): for every image of original width `W0 > 0` (at most
`2^24`) and every positive target width `W` (with `W × H0` at most `2^26`),
the conversion with `target_width = W` produces a grid whose width is
exactly `W`; its height is the truncation toward zero of the IEEE-double
product `W * (H0 / W0)` — not the rounding of the exact quotient: whenever
`W0` does not divide `W × H0` the height is exactly `⌊W × H0 / W0⌋`, and in
the exactly divisible case double rounding can make it one less than the
exact quotient (see `resize_height_undershoots`). -/
theorem c1_resize_width_and_truncated_height (img : Image) (t : Int) (W : Nat)
    (h0 : 0 < img.width) (hW : 0 < W)
    (hw0 : img.width ≤ 2 ^ 24) (hmag : W * img.height ≤ 2 ^ 26) :
    (image_to_sprite img t (some (W : Int))).2.1 = W
    ∧ (¬ img.width ∣ W * img.height →
        (image_to_sprite img t (some (W : Int))).1.length = (W * img.height) / img.width
        ∧ (image_to_sprite img t (some (W : Int))).2.2 = (W * img.height) / img.width)
    ∧ (img.width ∣ W * img.height →
        (image_to_sprite img t (some (W : Int))).2.2 = (W * img.height) / img.width
        ∨ (image_to_sprite img t (some (W : Int))).2.2 + 1 = (W * img.height) / img.width) := by
  have htw : truthy (some (W : Int)) = true := by
    simp [truthy]
    omega
  have har : applyResize img (some (W : Int)) = resizeNearest img (W : Int) := by
    simp [applyResize, htw]
  have hc := resizeNearest_height_cases img W h0 hw0 hmag
  refine ⟨?_, ?_, ?_⟩
  · show (applyResize img (some (W : Int))).width = W
    rw [har, resizeNearest_width]
    simp
  · intro hnd
    constructor
    · rw [sprite_length, har]
      exact hc.1 hnd
    · show (applyResize img (some (W : Int))).height = _
      rw [har]
      exact hc.1 hnd
  · intro hd
    rcases hc.2 hd with h | h
    · left
      show (applyResize img (some (W : Int))).height = _
      rw [har]
      exact h
    · right
      show (applyResize img (some (W : Int))).height + 1 = _
      rw [har]
      exact h

/-- C1 (counterexample): a 3×2 image resized to target width 4 yields a grid
of height 2 (the double-precision product `4 * (2/3)` is
`2.6666666666666665`, truncated to 2), while `round(4 × 2 / 3) = 3`; the
claim's rounding formula is falsified at this input. -/
theorem c1_height_not_round_counterexample :
    (image_to_sprite exImg32 128 (some 4)).1.length = 2
    ∧ (image_to_sprite exImg32 128 (some 4)).2.2 = 2
    ∧ round (((4 : ℚ) * 2) / 3) = 3
    ∧ ¬ ((image_to_sprite exImg32 128 (some 4)).1.length
          = (round (((4 : ℚ) * 2) / 3)).toNat) := by
  have har : applyResize exImg32 (some 4) = resizeNearest exImg32 4 := by
    simp [applyResize, truthy]
  have hc := (resizeNearest_height_cases exImg32 4 (by decide) (by decide)
    (by decide)).1 (by decide)
  rw [show (((4:ℕ)) : ℤ) = (4 : ℤ) by norm_num] at hc
  have h1 : (image_to_sprite exImg32 128 (some 4)).1.length = 2 := by
    rw [sprite_length, har, hc]
    decide
  have h2 : (image_to_sprite exImg32 128 (some 4)).2.2 = 2 :=
    (sprite_length exImg32 128 (some 4)).symm.trans h1
  have h3 : round (((4 : ℚ) * 2) / 3) = 3 := by
    rw [round_eq, Int.floor_eq_iff]
    norm_num
  refine ⟨h1, h2, h3, ?_⟩
  rw [h1, h3]
  decide

/-- Witness for C1 (amended) at the concrete 3×2 image and target width 4
(where 3 does not divide 4 × 2). -/
theorem c1_resize_witness :
    (image_to_sprite exImg32 128 (some ((4 : Nat) : Int))).2.2
      = (4 * exImg32.height) / exImg32.width :=
  ((c1_resize_width_and_truncated_height exImg32 128 4 (by decide) (by decide)
      (by decide) (by decide)).2.1 (by decide)).2

/-- C2: every grid entry equals 1 exactly when the pixel's channel average
`(R + G + B) / 3` is strictly below the threshold and 0 otherwise, for the
pixel of the (possibly resized) image at that coordinate; in particular
every entry is 0 or 1. -/
theorem c2_pixel_classification (img : Image) (t : Int) (tw : Option Int) (y x : Nat)
    (hy : y < (applyResize img tw).height) (hx : x < (applyResize img tw).width) :
    (((image_to_sprite img t tw).1.getD y []).getD x 2
        = if (((applyResize img tw).px x y).r + ((((applyResize img tw).px x y).g : ℚ))
              + ((((applyResize img tw).px x y).b : ℚ))) / 3 < (t : ℚ) then 1 else 0)
    ∧ ((((image_to_sprite img t tw).1.getD y []).getD x 2 = 0)
        ∨ (((image_to_sprite img t tw).1.getD y []).getD x 2 = 1)) := by
  have hrow : (image_to_sprite img t tw).1.getD y []
      = (List.range (applyResize img tw).width).map
          (fun x => pixelValue ((applyResize img tw).px x y) t) := by
    simp only [image_to_sprite]
    rw [List.getD_eq_getElem?_getD, List.getElem?_eq_getElem (by simpa using hy)]
    simp only [List.getElem_map, List.getElem_range, Option.getD_some]
  have hval : ((image_to_sprite img t tw).1.getD y []).getD x 2
      = pixelValue ((applyResize img tw).px x y) t := by
    rw [hrow, List.getD_eq_getElem?_getD, List.getElem?_eq_getElem (by simpa using hx)]
    simp only [List.getElem_map, List.getElem_range, Option.getD_some]
  refine ⟨?_, ?_⟩
  · rw [hval]
    unfold pixelValue brightness
    congr 2
    push_cast
    ring
  · rw [hval]
    unfold pixelValue
    split
    · right; rfl
    · left; rfl

/-- Witness for C2 at pixel (0,0) of the concrete 2×2 image. -/
theorem c2_pixel_classification_witness :
    ((image_to_sprite exImg22 128 none).1.getD 0 []).getD 0 2 = 0
    ∨ ((image_to_sprite exImg22 128 none).1.getD 0 []).getD 0 2 = 1 :=
  (c2_pixel_classification exImg22 128 none 0 0 (by decide) (by decide)).2

/-- C3 (counterexample): with the path argument missing, the process exits
with status 1 — a failure path — yet standard output receives the usage
message, which is nonempty; so it is false that standard output stays empty
on every failure path. -/
theorem c3_usage_on_stdout_counterexample :
    (Script.main ["image_to_sprite.py"] emptyWorld).exitCode = 1
    ∧ (Script.main ["image_to_sprite.py"] emptyWorld).stdout = usageText
    ∧ usageText ≠ "" := by
  refine ⟨rfl, rfl, by decide⟩

/-- C3 (amended): standard output is never partial — on every run it is
either empty (file-not-found, decode-failure and integer-parse failure
paths), exactly the usage message (missing-path path, where the source's
plain `print` calls write to standard output), or the full formatted
literal followed by a newline (success). -/
theorem c3_stdout_empty_usage_or_full (argv : List String) (w : World) :
    (Script.main argv w).stdout = "" ∨ (Script.main argv w).stdout = usageText
      ∨ ∃ g : List (List Nat),
          (Script.main argv w).stdout = format_as_typescript g "STACK_ATTACK_LOGO" ++ "\n" := by
  by_cases hlen : argv.length < 2
  · right; left
    simp [Script.main, hlen]
  · rcases hp2 : parseOptArg argv 2 with _ | o2
    · left; rw [main_eval_badparse argv w hlen (Or.inl hp2)]; rfl
    · rcases hp3 : parseOptArg argv 3 with _ | o3
      · left; rw [main_eval_badparse argv w hlen (Or.inr hp3)]; rfl
      · obtain ⟨prog, path, args, rfl⟩ : ∃ a b l, argv = a :: b :: l := by
          rcases argv with _ | ⟨a, _ | ⟨b, l⟩⟩
          · simp at hlen
          · simp at hlen
          · exact ⟨a, b, l, rfl⟩
        rw [main_eval prog path args w o2 o3 hp2 hp3]
        by_cases hex : w.exists_file path = false
        · left; rw [if_pos hex]
        · rw [if_neg hex]
          rcases hd : w.decode path with _ | img
          · left; simp only [hd]
          · right; right
            refine ⟨(image_to_sprite img (o2.getD 128) o3).1, ?_⟩
            simp only [hd]

/-- C4: the produced grid has exactly the post-resize height many rows,
every row has exactly the post-resize width many entries (so all rows have
identical length), and the returned width/height are those dimensions. -/
theorem c4_grid_rectangular (img : Image) (t : Int) (tw : Option Int) :
    (image_to_sprite img t tw).1.length = (applyResize img tw).height
    ∧ (∀ row ∈ (image_to_sprite img t tw).1, row.length = (applyResize img tw).width)
    ∧ (image_to_sprite img t tw).2.1 = (applyResize img tw).width
    ∧ (image_to_sprite img t tw).2.2 = (applyResize img tw).height := by
  refine ⟨sprite_length img t tw, ?_, rfl, rfl⟩
  intro row hrow
  simp only [image_to_sprite, List.mem_map] at hrow
  obtain ⟨y, -, rfl⟩ := hrow
  simp

/-- Witness for C4: the first row of the concrete 2×2 image's grid has the
image's width. -/
theorem c4_grid_rectangular_witness :
    ([1, 0] : List Nat).length = (applyResize exImg22 none).width :=
  (c4_grid_rectangular exImg22 128 none).2.1 [1, 0] (by
    simp only [image_to_sprite, applyResize, truthy, pixelValue_eq_int]
    decide)

/-- C5: the named-constant text produced by the formatter under the
hardcoded label is exactly the shape the spec describes — header line with
label and opening brace, a `pixels` field with one trailing-comma bracketed
comma-joined row per grid row in top-to-bottom order, closing bracket line
and closing brace with semicolon. -/
theorem c5_named_constant_format (pixels : List (List Nat)) :
    format_as_typescript pixels "STACK_ATTACK_LOGO" = specNamedConstantOutput pixels := by
  unfold format_as_typescript specNamedConstantOutput
  show String.intercalate.go ("const " ++ "STACK_ATTACK_LOGO" ++ " = \x7b") "\n"
      ("  pixels: [" :: (pixels.map rowLine ++ ["  ],", "\x7d;"])) = _
  rw [intercalate_go_eq]
  show _ ++ ("\n" ++ "  pixels: [" ++ nlJoin (pixels.map rowLine ++ _)) = _
  rw [nlJoin_rows]
  apply String.ext
  simp [String.data_append, List.append_assoc]

/-- C6: when the (parseable) arguments name a path that does not exist, the
run exits with status 1, writes the file-not-found diagnostic, leaves
standard output empty, and is independent of the decode function — the
existence check happens before any decode is attempted. -/
theorem c6_missing_file (prog path : String) (args : List String) (w : World)
    (hp2 : parseOptArg (prog :: path :: args) 2 ≠ none)
    (hp3 : parseOptArg (prog :: path :: args) 3 ≠ none)
    (hex : w.exists_file path = false) :
    Script.main (prog :: path :: args) w
      = { exitCode := 1, stdout := "", stderr := [Diag.fileNotFound path] }
    ∧ (∀ d : String → Option Image,
        Script.main (prog :: path :: args) { exists_file := w.exists_file, decode := d }
          = { exitCode := 1, stdout := "", stderr := [Diag.fileNotFound path] }) := by
  obtain ⟨o2, h2⟩ := Option.ne_none_iff_exists'.mp hp2
  obtain ⟨o3, h3⟩ := Option.ne_none_iff_exists'.mp hp3
  constructor
  · rw [main_eval prog path args w o2 o3 h2 h3, if_pos hex]
  · intro d
    rw [main_eval prog path args ⟨w.exists_file, d⟩ o2 o3 h2 h3]
    exact if_pos hex

/-- Witness for C6: the spec's missing-file scenario `./nope.png`. -/
theorem c6_missing_file_witness :
    Script.main ["prog", "./nope.png"] emptyWorld
      = { exitCode := 1, stdout := "", stderr := [Diag.fileNotFound "./nope.png"] } :=
  (c6_missing_file "prog" "./nope.png" [] emptyWorld (by decide) (by decide) rfl).1

/-- C7: with threshold 0 every grid entry is 0, because no brightness is
strictly below 0. -/
theorem c7_threshold_zero_all_background (img : Image) (tw : Option Int) :
    ∀ row ∈ (image_to_sprite img 0 tw).1, ∀ v ∈ row, v = 0 := by
  intro row hrow v hv
  simp only [image_to_sprite, List.mem_map] at hrow
  obtain ⟨y, -, rfl⟩ := hrow
  simp only [List.mem_map] at hv
  obtain ⟨x, -, rfl⟩ := hv
  unfold pixelValue
  rw [if_neg]
  intro h
  have hnn : (0 : ℚ) ≤ brightness ((applyResize img tw).px x y) := by
    unfold brightness
    positivity
  simp only [Int.cast_zero] at h
  exact absurd h (not_lt.2 hnn)

/-- Witness for C7 at the concrete 2×2 image. -/
theorem c7_threshold_zero_witness :
    [0, 0] ∈ (image_to_sprite exImg22 0 none).1
    ∧ (0 : Nat) ∈ ([0, 0] : List Nat) ∧ (0 : Nat) = 0 :=
  have h1 : [0, 0] ∈ (image_to_sprite exImg22 0 none).1 := by
    simp only [image_to_sprite, applyResize, truthy, pixelValue_eq_int]
    decide
  ⟨h1, by decide, c7_threshold_zero_all_background exImg22 none [0, 0] h1 0 (by decide)⟩

/-- C8: the conversion is deterministic in the observable sense — two runs
given the same decoded image data and the same textual threshold and
target-width arguments produce byte-identical standard output, regardless
of path names or any other difference between the environments. -/
theorem c8_deterministic_output (prog1 prog2 path1 path2 : String) (rest : List String)
    (w1 w2 : World) (img : Image)
    (h1 : w1.exists_file path1 = true) (h2 : w2.exists_file path2 = true)
    (d1 : w1.decode path1 = some img) (d2 : w2.decode path2 = some img) :
    (Script.main (prog1 :: path1 :: rest) w1).stdout
      = (Script.main (prog2 :: path2 :: rest) w2).stdout := by
  have e2 : parseOptArg (prog1 :: path1 :: rest) 2 = parseOptArg (prog2 :: path2 :: rest) 2 := by
    simp [parseOptArg, List.getD_cons_succ]
  have e3 : parseOptArg (prog1 :: path1 :: rest) 3 = parseOptArg (prog2 :: path2 :: rest) 3 := by
    simp [parseOptArg, List.getD_cons_succ]
  have hlen1 : ¬ (prog1 :: path1 :: rest).length < 2 := by simp
  have hlen2 : ¬ (prog2 :: path2 :: rest).length < 2 := by simp
  rcases hp2 : parseOptArg (prog2 :: path2 :: rest) 2 with _ | o2
  · rw [main_eval_badparse _ w1 hlen1 (Or.inl (e2.trans hp2)),
      main_eval_badparse _ w2 hlen2 (Or.inl hp2)]
  · rcases hp3 : parseOptArg (prog2 :: path2 :: rest) 3 with _ | o3
    · rw [main_eval_badparse _ w1 hlen1 (Or.inr (e3.trans hp3)),
        main_eval_badparse _ w2 hlen2 (Or.inr hp3)]
    · rw [main_eval prog1 path1 rest w1 o2 o3 (e2.trans hp2) (e3.trans hp3),
        main_eval prog2 path2 rest w2 o2 o3 hp2 hp3]
      rw [if_neg (by simp [h1]), if_neg (by simp [h2])]
      simp only [d1, d2]

/-- Witness for C8: two environments that differ in path names and
existence of other files but decode to the same image. -/
theorem c8_deterministic_witness :
    (Script.main ["prog", "a.png", "128", "2"] fullWorld).stdout
      = (Script.main ["prog", "b.png", "128", "2"] bWorld).stdout :=
  c8_deterministic_output "prog" "prog" "a.png" "b.png" ["128", "2"] fullWorld bWorld exImg22
    rfl (by decide) rfl (by simp [bWorld])

/-- C9: a supplied target width of 0 is falsy in the source's
`if target_width:` test, so no resize happens — the conversion coincides
with the no-target-width run and the grid dimensions are the original image
dimensions (no zero-width grid, no error). -/
theorem c9_zero_target_width_no_resize (img : Image) (t : Int) :
    image_to_sprite img t (some 0) = image_to_sprite img t none
    ∧ (image_to_sprite img t (some 0)).2.1 = img.width
    ∧ (image_to_sprite img t (some 0)).2.2 = img.height :=
  ⟨rfl, rfl, rfl⟩

/-- C10: if the second or third command-line argument is present but does
not parse as a decimal integer, the run ends in the uncaught `ValueError`
outcome in every environment — before the existence check — so standard
output stays empty and no file-not-found diagnostic is emitted even when
the path does not exist. -/
theorem c10_parse_error_preempts_checks (argv : List String) (w : World)
    (h : parseOptArg argv 2 = none ∨ parseOptArg argv 3 = none) :
    Script.main argv w = valueErrorOutcome
    ∧ (Script.main argv w).stdout = ""
    ∧ ∀ p : String, Diag.fileNotFound p ∉ (Script.main argv w).stderr := by
  have hlen : ¬ argv.length < 2 := by
    rcases h with h | h
    · have := parseOptArg_none_lt argv 2 h
      omega
    · have := parseOptArg_none_lt argv 3 h
      omega
  have hm := main_eval_badparse argv w hlen h
  refine ⟨hm, by rw [hm]; rfl, ?_⟩
  intro p
  rw [hm]
  simp [valueErrorOutcome]

/-- Witness for C10: a nonexistent path together with the non-numeric
threshold argument `abc`. -/
theorem c10_parse_error_witness :
    Script.main ["prog", "./nope.png", "abc"] emptyWorld = valueErrorOutcome :=
  (c10_parse_error_preempts_checks ["prog", "./nope.png", "abc"] emptyWorld
    (Or.inl (by decide))).1
